import Mathlib

/-!
# A verification model of the `sharkissa` iSSA pipeline

Shallow embedding of the core of the `Shark_iSSA_py` repository
(`sharkissa/regularize.py`, `sharkissa/steps.py`,
`sharkissa/covariates/social.py`, `sharkissa/design.py`,
`sharkissa/validate.py`).

Modelling conventions:
* Python/numpy floats are modelled as elements of a linear ordered field `F`
  (instantiated at `ℝ` in the theorems that need facts about the genuine
  transcendental functions).  The transcendental functions the source calls
  (`np.sin`, `np.cos`, `np.sqrt`, `np.arcsin`, `np.arctan2`, `np.log`,
  `np.exp`, `np.pi`) are passed to each definition as an explicit parameter
  pack `RealOps F`, mirroring the numpy namespace; theorems about the real
  program instantiate the pack with Mathlib's real functions.
* A table cell that can hold `NaN` is modelled as `Option F` (`none` = `NaN`);
  `dropna` is `Option.isSome` filtering, and numpy's NaN propagation through
  arithmetic is explicit `Option` plumbing.  In the real-number model no
  arithmetic ever *creates* a non-finite value, so `np.isfinite` checks on
  always-finite quantities are modelled as `True` (noted locally where so).
* pandas timestamps are integer minutes (`Int`).
* Fallible code (Python `raise`) is `Except String`.
-/

set_option linter.unusedSectionVars false

namespace SharkISSA

/-- The numpy scalar functions used by the source, as a parameter pack.
`atan2 y x` is `np.arctan2(y, x)`. -/
structure RealOps (F : Type) where
  sin : F → F
  cos : F → F
  sqrt : F → F
  asin : F → F
  atan2 : F → F → F
  pi : F
  log : F → F
  exp : F → F

variable {F : Type} [LinearOrderedField F] [FloorRing F]

/-- Python/numpy `x % m` on floats: floor-style modulo `x - m*floor(x/m)`. -/
def fmod (x m : F) : F := x - m * ((⌊x / m⌋ : ℤ) : F)

/-- `regularize.py` line 51: the turn angle
`((heading - heading_prev + np.pi) % (2*np.pi)) - np.pi`, as a function of the
value used for `np.pi`, the current heading and the previous heading. -/
def turn_rad_of (piv h hp : F) : F := fmod (h - hp + piv) (2 * piv) - piv

theorem fmod_eq_fract_smul (x m : F) (hm : m ≠ 0) :
    fmod x m = m * Int.fract (x / m) := by
  rw [fmod, Int.fract]
  field_simp

theorem fmod_mem_Ico (x m : F) (hm : 0 < m) : fmod x m ∈ Set.Ico 0 m := by
  rw [fmod_eq_fract_smul x m (ne_of_gt hm)]
  constructor
  · exact mul_nonneg (le_of_lt hm) (Int.fract_nonneg _)
  · have h1 : Int.fract (x / m) < 1 := Int.fract_lt_one _
    calc m * Int.fract (x / m) < m * 1 := by
          exact (mul_lt_mul_left hm).mpr h1
      _ = m := mul_one m

/-- `design.py` `_zscore`: population mean (`np.nanmean` on a NaN-free
column). -/
def nanmean (l : List F) : F := l.sum / (l.length : F)

/-- `design.py` `_zscore`: population variance (square of `np.nanstd`,
`ddof = 0`). -/
def nanvar (l : List F) : F := (l.map (fun x => (x - nanmean l) ^ 2)).sum / (l.length : F)

/-- `np.nanstd`: square root of the population variance; the square root is
the `sqrtF` parameter (instantiated with `Real.sqrt`). -/
def nanstd (sqrtF : F → F) (l : List F) : F := sqrtF (nanvar l)

/-- `design.py` `_zscore` on a numeric column.  The source guard is
`not np.isfinite(sd) or sd == 0`; in the real-number model the standard
deviation of a (finite) column is always finite, so the guard is `sd = 0`. -/
def zscore (sqrtF : F → F) (l : List F) : List F :=
  if nanstd sqrtF l = 0 then l.map (fun x => x - nanmean l)
  else l.map (fun x => (x - nanmean l) / nanstd sqrtF l)

/-- C6 counterexample: at a bearing difference of exactly `π`
(current bearing `π`, previous bearing `0`), the computed turn angle is `-π`,
which is **not** in the claimed half-open interval `(-π, π]`. -/
theorem turn_wrap_at_pi_counterexample :
    turn_rad_of Real.pi Real.pi 0 = -Real.pi ∧
    -Real.pi ∉ Set.Ioc (-Real.pi) Real.pi := by
  constructor
  · have h2 : (2 * Real.pi) ≠ 0 := by positivity
    rw [turn_rad_of, fmod]
    rw [show Real.pi - 0 + Real.pi = 2 * Real.pi by ring]
    rw [div_self h2]
    norm_num
  · simp [Set.mem_Ioc]

/-- C6 (amended): for all real current/previous bearings, the computed turn
angle `((h - hp + π) % (2π)) - π` lies in the half-open interval `[-π, π)`
(closed at `-π`, open at `π`) and is congruent to the raw bearing difference
modulo `2π`.  In particular a difference congruent to `π` wraps to `-π`. -/
theorem turn_rad_of_spec (h hp : ℝ) :
    turn_rad_of Real.pi h hp ∈ Set.Ico (-Real.pi) Real.pi ∧
    ∃ n : ℤ, (h - hp) - turn_rad_of Real.pi h hp = 2 * Real.pi * n := by
  have hpi : (0:ℝ) < 2 * Real.pi := by positivity
  constructor
  · have hmem := fmod_mem_Ico (h - hp + Real.pi) (2 * Real.pi) hpi
    obtain ⟨h0, h1⟩ := hmem
    constructor
    · rw [turn_rad_of]; linarith
    · rw [turn_rad_of]; linarith
  · refine ⟨⌊(h - hp + Real.pi) / (2 * Real.pi)⌋, ?_⟩
    rw [turn_rad_of, fmod]
    ring

/-- C8: `_zscore` is the identity on a column with mean `0` and standard
deviation `1`; and on a column with zero standard deviation it only
mean-centers (no division). -/
theorem zscore_spec (l : List ℝ) :
    (nanmean l = 0 → nanstd Real.sqrt l = 1 → zscore Real.sqrt l = l) ∧
    (nanstd Real.sqrt l = 0 → zscore Real.sqrt l = l.map (fun x => x - nanmean l)) := by
  constructor
  · intro hm hs
    rw [zscore, hs, hm]
    norm_num
  · intro hs
    rw [zscore, if_pos hs]

/-- C8 witness: a concrete column with mean 0 and standard deviation 1 is
returned unchanged, and a concrete constant column is only mean-centered. -/
theorem zscore_spec_witness :
    zscore Real.sqrt [(1:ℝ), -1] = [1, -1] ∧
    zscore Real.sqrt [(3:ℝ), 3] = List.map (fun x => x - nanmean [(3:ℝ), 3]) [3, 3] := by
  have hvar : nanvar [(1:ℝ), -1] = 1 := by
    norm_num [nanvar, nanmean]
  have hvar0 : nanvar [(3:ℝ), 3] = 0 := by
    norm_num [nanvar, nanmean]
  constructor
  · exact (zscore_spec [(1:ℝ), -1]).1 (by norm_num [nanmean])
      (by rw [nanstd, hvar, Real.sqrt_one])
  · exact (zscore_spec [(3:ℝ), 3]).2 (by rw [nanstd, hvar0, Real.sqrt_zero])

/-! ## `covariates/social.py`: the time-indexed neighbor engine -/

/-- One regularized row as read by the neighbor engine
(`TimeNeighborIndex.build` keeps, per timestamp, the endpoint, id, heading
and speed arrays).  These fields are all defined on the regularized table the
engine is built from. -/
structure RegRow (F : Type) where
  id : Nat
  time : Int
  x_m : F
  y_m : F
  heading_rad : F
  speed_mps : F
deriving DecidableEq

/-- The dict returned by `TimeNeighborIndex.query_social`; `Option` fields are
the entries that can be `NaN`. -/
structure SocialCovariates (F : Type) where
  nn_dist : Option F
  n_forward : F
  n_behind : F
  ahead_any : F
  behind_any : F
  mean_align_fwd : Option F
  rel_speed_fwd : Option F
deriving DecidableEq

/-- The "no neighbors" record returned when the timestamp is absent from the
index or no point is within the radius. -/
def noNeighborRec : SocialCovariates F := ⟨none, 0, 0, 0, 0, none, none⟩

/-- `TimeNeighborIndex.build` groups the regularized table by timestamp; the
snapshot consulted for a query at time `t` is exactly the rows whose
timestamp is `t`, in table order. -/
def snapshotAt (reg : List (RegRow F)) (t : Int) : List (RegRow F) :=
  reg.filter (fun r => r.time = t)

/-- The `arr["id"] != focal_id` mask (the `np.isfinite(dist)` conjunct is
always true in the real-number model). -/
def nonFocal (arr : List (RegRow F)) (focal : Nat) : List (RegRow F) :=
  arr.filter (fun r => r.id ≠ focal)

/-- `np.hypot`. -/
def hypot (ops : RealOps F) (x y : F) : F := ops.sqrt (x * x + y * y)

/-- Planar Euclidean distance from a stored endpoint to the query endpoint. -/
def distTo (ops : RealOps F) (x_end y_end : F) (r : RegRow F) : F :=
  hypot ops (r.x_m - x_end) (r.y_m - y_end)

/-- The `dist <= self.radius_m` filter (inclusive at the boundary). -/
def withinRadius (ops : RealOps F) (radius_m x_end y_end : F)
    (pts : List (RegRow F)) : List (RegRow F) :=
  pts.filter (fun r => distTo ops x_end y_end r ≤ radius_m)

/-- Mean of a list (`np.nanmean` over NaN-free values). -/
def listMean (l : List F) : F := l.sum / (l.length : F)

/-- `np.min` of a nonempty array (junk value `0` on `[]`, matching the
`dist.size` guard in the source). -/
def minList : List F → F
  | [] => 0
  | d :: ds => ds.foldl min d

/-- `math.radians`. -/
def radians (ops : RealOps F) (deg : F) : F := deg * ops.pi / 180

/-- Signed forward/back projection of the offset to a neighbor onto the unit
vector of the query heading (`ux = sin h`, `uy = cos h`). -/
def projOf (ops : RealOps F) (x_end y_end step_heading : F) (r : RegRow F) : F :=
  (r.x_m - x_end) * ops.sin step_heading + (r.y_m - y_end) * ops.cos step_heading

/-- `ang_diff`: absolute angular deviation between the bearing to a neighbor
(`np.arctan2(dx, dy)`) and the query heading, wrapped. -/
def angDiffOf (ops : RealOps F) (x_end y_end step_heading : F) (r : RegRow F) : F :=
  |fmod (ops.atan2 (r.x_m - x_end) (r.y_m - y_end) - step_heading + ops.pi)
      (2 * ops.pi) - ops.pi|

/-- Heading alignment of a forward neighbor with the query heading. -/
def alignOf (ops : RealOps F) (step_heading : F) (r : RegRow F) : F :=
  ops.cos (fmod (r.heading_rad - step_heading + ops.pi) (2 * ops.pi) - ops.pi)

/-- `TimeNeighborIndex.query_social`, one query against the built index. -/
def query_social (ops : RealOps F) (radius_m cone_half_angle_deg : F)
    (reg : List (RegRow F)) (time : Int) (x_end y_end step_heading : F)
    (focal : Nat) : SocialCovariates F :=
  let arr := snapshotAt reg time
  if arr = [] then noNeighborRec else
  let pts := nonFocal arr focal
  let wr := withinRadius ops radius_m x_end y_end pts
  if wr = [] then noNeighborRec else
  let half := radians ops cone_half_angle_deg
  let fwd := wr.filter (fun r =>
    decide (0 < projOf ops x_end y_end step_heading r ∧
      angDiffOf ops x_end y_end step_heading r ≤ half))
  let bhd := wr.filter (fun r =>
    decide (projOf ops x_end y_end step_heading r < 0 ∧
      angDiffOf ops x_end y_end step_heading r ≤ half))
  { nn_dist := some (minList (wr.map (distTo ops x_end y_end))),
    n_forward := (fwd.length : F),
    n_behind := (bhd.length : F),
    ahead_any := if 0 < fwd.length then 1 else 0,
    behind_any := if 0 < bhd.length then 1 else 0,
    mean_align_fwd :=
      if 0 < fwd.length then some (listMean (fwd.map (alignOf ops step_heading)))
      else none,
    -- `speed_nb[forward] - 0.0` in the source
    rel_speed_fwd :=
      if 0 < fwd.length then some (listMean (fwd.map (fun r => r.speed_mps)))
      else none }

/-- C1: a neighbor query at time `t` reads only the snapshot of rows whose
timestamp is exactly `t`: two regularized tables that agree row-for-row on
ids and timestamps, and agree entirely on the rows at timestamp `t`, give
identical query results, whatever the rows at other timestamps hold. -/
theorem query_social_time_exact (ops : RealOps F) (radius_m cone : F)
    (A B : List (RegRow F)) (t : Int) (x_end y_end step_heading : F)
    (focal : Nat)
    (hAB : List.Forall₂
      (fun a b => a.id = b.id ∧ a.time = b.time ∧ (a.time = t → a = b)) A B) :
    query_social ops radius_m cone A t x_end y_end step_heading focal =
    query_social ops radius_m cone B t x_end y_end step_heading focal := by
  have hsnap : snapshotAt A t = snapshotAt B t := by
    induction hAB with
    | nil => rfl
    | @cons a b l₁ l₂ hab htl ih =>
      obtain ⟨hid, htime, heq⟩ := hab
      by_cases h : a.time = t
      · have hb : b.time = t := by rw [← htime]; exact h
        rw [heq h]
        simp only [snapshotAt] at ih ⊢
        simp [List.filter_cons, hb, ih]
      · have hb : ¬ b.time = t := by rw [← htime]; exact h
        simp only [snapshotAt] at ih ⊢
        simp [List.filter_cons, h, hb, ih]
  simp only [query_social, hsnap]

/-! ## `design.py`: the design assembler's missing-value pass -/

/-- The social columns of one design row during `add_social` (cells may be
`NaN`). -/
structure SocialCols (F : Type) where
  nn_dist : Option F
  n_forward : Option F
  n_behind : Option F
  ahead_any : Option F
  behind_any : Option F
  mean_align_fwd : Option F
  rel_speed_fwd : Option F
deriving DecidableEq

/-- Writing a `query_social` result into the design row's social columns
(the `design.at[r.Index, k] = v` loop of `add_social`). -/
def socialColsOf (q : SocialCovariates F) : SocialCols F :=
  ⟨q.nn_dist, some q.n_forward, some q.n_behind, some q.ahead_any,
   some q.behind_any, q.mean_align_fwd, q.rel_speed_fwd⟩

/-- `add_social` lines 87-106, the deterministic missing-value pass, one row
at a time: indicators and counts `fillna(0)`; then `nn_dist` set to the
radius where the (filled) indicator/count sum is zero and the cell is
missing, and any remaining missing `nn_dist` also set to the radius; then
alignment and relative speed `fillna(0)`. -/
def fillSocial (radius_m : F) (c : SocialCols F) : SocialCols F :=
  let ahead := c.ahead_any.getD 0
  let behind := c.behind_any.getD 0
  let nf := c.n_forward.getD 0
  let nb := c.n_behind.getD 0
  let no_neighbors := ahead + behind + nf + nb = 0
  let nn1 := if no_neighbors ∧ c.nn_dist = none then some radius_m else c.nn_dist
  let nn2 := some (nn1.getD radius_m)
  ⟨nn2, some nf, some nb, some ahead, some behind,
   some (c.mean_align_fwd.getD 0), some (c.rel_speed_fwd.getD 0)⟩

/-- C7: after the missing-value pass every design row has defined social
cells: counts and presence indicators default to `0`, the nearest-neighbor
distance defaults to exactly the configured radius, and the alignment and
relative-speed features default to `0`; defined cells are untouched. -/
theorem fillSocial_spec (radius_m : F) (c : SocialCols F) :
    fillSocial radius_m c =
      ⟨some (c.nn_dist.getD radius_m), some (c.n_forward.getD 0),
       some (c.n_behind.getD 0), some (c.ahead_any.getD 0),
       some (c.behind_any.getD 0), some (c.mean_align_fwd.getD 0),
       some (c.rel_speed_fwd.getD 0)⟩ := by
  rw [fillSocial]
  cases hnn : c.nn_dist with
  | none =>
    simp only [hnn]
    split <;> simp
  | some d => simp [hnn]

/-- C10: the radius test is inclusive at the boundary.  A conspecific present
at the query timestamp whose distance to the query endpoint is exactly the
radius passes the within-radius filter; when it is the only such neighbor
the query returns `nn_dist` equal to the radius, and after the assembler's
fill pass that value coincides exactly with the default filled in for the
"no neighbors" record. -/
theorem neighbor_radius_boundary (ops : RealOps F) (radius_m cone : F)
    (reg : List (RegRow F)) (t : Int) (x_end y_end step_heading : F)
    (focal : Nat) (nb : RegRow F) :
    (nb ∈ nonFocal (snapshotAt reg t) focal →
      distTo ops x_end y_end nb = radius_m →
      nb ∈ withinRadius ops radius_m x_end y_end
        (nonFocal (snapshotAt reg t) focal)) ∧
    (withinRadius ops radius_m x_end y_end (nonFocal (snapshotAt reg t) focal)
        = [nb] →
      distTo ops x_end y_end nb = radius_m →
      (query_social ops radius_m cone reg t x_end y_end step_heading
          focal).nn_dist = some radius_m ∧
      (fillSocial radius_m (socialColsOf (query_social ops radius_m cone reg t
          x_end y_end step_heading focal))).nn_dist = some radius_m ∧
      (fillSocial radius_m (socialColsOf (noNeighborRec (F := F)))).nn_dist
          = some radius_m) := by
  constructor
  · intro hmem hdist
    rw [withinRadius, List.mem_filter]
    exact ⟨hmem, by rw [hdist]; simp⟩
  · intro honly hdist
    have harr : snapshotAt reg t ≠ [] := by
      intro h0
      rw [snapshotAt] at h0
      rw [withinRadius, nonFocal, snapshotAt, h0] at honly
      simp at honly
    have hnb_mem : nb ∈ withinRadius ops radius_m x_end y_end
        (nonFocal (snapshotAt reg t) focal) := by
      rw [honly]; exact List.mem_singleton_self nb
    have hq : (query_social ops radius_m cone reg t x_end y_end step_heading
        focal).nn_dist = some radius_m := by
      rw [query_social]
      simp only [harr, if_false, honly]
      have : ¬ ([nb] = ([] : List (RegRow F))) := by simp
      simp only [this, if_false]
      simp [minList, hdist]
    refine ⟨hq, ?_, ?_⟩
    · simp [fillSocial_spec, socialColsOf, hq]
    · simp [fillSocial_spec, socialColsOf, noNeighborRec]

/-- A concrete computable scalar-function pack over `ℚ`, used to evaluate the
structural (function-independent) theorems on explicit inputs. -/
def qOps : RealOps ℚ := ⟨id, id, id, id, fun y x => y + x, 3, id, id⟩

/-- C1 witness: perturbing the position, heading and speed of the row at
timestamp 5 does not change a query at timestamp 0. -/
theorem query_social_time_exact_witness :
    query_social qOps 10 90 [⟨1, 0, 0, 0, 0, 0⟩, ⟨2, 5, 1, 1, 0, 0⟩]
      0 2 2 0 7 =
    query_social qOps 10 90 [⟨1, 0, 0, 0, 0, 0⟩, ⟨2, 5, 9, 9, 2, 2⟩]
      0 2 2 0 7 := by
  apply query_social_time_exact
  refine List.Forall₂.cons ⟨rfl, rfl, fun _ => rfl⟩ ?_
  exact List.Forall₂.cons ⟨rfl, rfl, fun h => absurd h (by decide)⟩
    List.Forall₂.nil

/-- C10 witness: a single conspecific at planar distance exactly the radius
(radius 1, neighbor at (1,0), query endpoint (0,0)) is within radius, the
query returns `nn_dist` = radius, and the filled value coincides with the
filled "no neighbors" default. -/
theorem neighbor_radius_boundary_witness :
    ((⟨2, 0, 1, 0, 0, 0⟩ : RegRow ℚ) ∈ withinRadius qOps 1 0 0
        (nonFocal (snapshotAt [⟨2, 0, 1, 0, 0, 0⟩] 0) 7)) ∧
    (query_social qOps 1 90 [⟨2, 0, 1, 0, 0, 0⟩] 0 0 0 0 7).nn_dist
        = some 1 ∧
    (fillSocial 1 (socialColsOf
        (query_social qOps 1 90 [⟨2, 0, 1, 0, 0, 0⟩] 0 0 0 0 7))).nn_dist
        = some 1 ∧
    (fillSocial 1 (socialColsOf (noNeighborRec (F := ℚ)))).nn_dist
        = some 1 := by
  have h := neighbor_radius_boundary qOps 1 90 [⟨2, 0, 1, 0, 0, 0⟩] 0 0 0 0 7
    ⟨2, 0, 1, 0, 0, 0⟩
  have hdist : distTo qOps 0 0 (⟨2, 0, 1, 0, 0, 0⟩ : RegRow ℚ) = 1 := by
    norm_num [distTo, hypot, qOps]
  have hmem : (⟨2, 0, 1, 0, 0, 0⟩ : RegRow ℚ) ∈
      nonFocal (snapshotAt [⟨2, 0, 1, 0, 0, 0⟩] 0) 7 := by
    norm_num [nonFocal, snapshotAt]
  have honly : withinRadius qOps 1 0 0
      (nonFocal (snapshotAt [(⟨2, 0, 1, 0, 0, 0⟩ : RegRow ℚ)] 0) 7)
      = [⟨2, 0, 1, 0, 0, 0⟩] := by
    norm_num [withinRadius, nonFocal, snapshotAt, distTo, hypot, qOps]
  have h2 := h.2 honly hdist
  exact ⟨h.1 hmem hdist, h2.1, h2.2.1, h2.2.2⟩

/-! ## `steps.py`: the step/stratum builder -/

/-- One row of the regularized table as selected and renamed by
`build_used_available`.  Fields the regularizer's final `dropna` guarantees
(`x_m`, `y_m`, `x_prev`, `y_prev`) are plain `F`; fields that can still be
`NaN` on a regularized row are `Option F`. -/
structure StepRow (F : Type) where
  id : Nat
  time : Int
  x_m : F
  y_m : F
  x_prev : F
  y_prev : F
  heading_rad : Option F
  heading_prev_rad : Option F
  step_len_m : Option F
  turn_rad : Option F
deriving DecidableEq

instance : Inhabited (StepRow F) := ⟨⟨0, 0, 0, 0, 0, 0, none, none, none, none⟩⟩

/-- The configuration fields the step/stratum builder reads. -/
structure StepsCfg where
  K_available : Nat
  include_log_l2 : Bool

/-- One row of the available frame as emitted by `AvailableSampler.sample`
(before `build_used_available` adds `log_l`, `cos_turn`, `log_l2`). -/
structure AvailRow (F : Type) where
  stratum_id : Nat
  id : Nat
  time : Int
  x_end : F
  y_end : F
  heading_step : F
  is_used : Nat
deriving DecidableEq

/-- One design row of the used+available output frame. -/
structure DesignRow (F : Type) where
  stratum_id : Nat
  id : Nat
  time : Int
  x_end : F
  y_end : F
  heading_step : Option F
  log_l : Option F
  cos_turn : Option F
  log_l2 : Option F
  is_used : Nat
deriving DecidableEq

/-- The `1e-9` guard added before taking logs. -/
def eps : F := 1 / 1000000000

/-- The `k`-th available row drawn for the input row `(idx, r)` with finite
heading `h` when `c` draws have been consumed so far: length and turn drawn
from the empirical pools, candidate heading `(h0 + turn + 2π) % (2π)` with
`h0` the previous heading (falling back to the current one), endpoint the
origin `(x_prev, y_prev)` plus the drawn length along the candidate heading
(sine on x, cosine on y: a bearing convention). -/
def availRowOf (ops : RealOps F) (K : Nat) (rng : Nat → Nat)
    (pool_len pool_turn : List F) (c idx : Nat) (r : StepRow F) (h : F)
    (k : Nat) : AvailRow F :=
  let len := pool_len.getD (rng (c + k) % pool_len.length) 0
  let turn := pool_turn.getD (rng (c + K + k) % pool_turn.length) 0
  let h0 := r.heading_prev_rad.getD h
  let hk := fmod (h0 + turn + 2 * ops.pi) (2 * ops.pi)
  { stratum_id := idx, id := r.id, time := r.time,
    x_end := r.x_prev + len * ops.sin hk,
    y_end := r.y_prev + len * ops.cos hk,
    heading_step := hk, is_used := 0 }

/-- The per-row loop of `AvailableSampler.sample`.  The seeded generator is
modelled as a stream `rng` of indices into the empirical pools
(`rng.choice(pool, size=K)` draws `K` values with replacement); `c` counts
the draws consumed so far, lengths drawn before turns as in the source.
Rows whose `heading_rad` is `NaN` are skipped and consume no draws. -/
def sampleAux (ops : RealOps F) (K : Nat) (rng : Nat → Nat)
    (pool_len pool_turn : List F) :
    Nat → List (Nat × StepRow F) → List (AvailRow F)
  | _, [] => []
  | c, (idx, r) :: rest =>
    match r.heading_rad with
    | none => sampleAux ops K rng pool_len pool_turn c rest
    | some h =>
      ((List.range K).map (availRowOf ops K rng pool_len pool_turn c idx r h))
        ++ sampleAux ops K rng pool_len pool_turn (c + 2 * K) rest

/-- `AvailableSampler.sample`: pools the observed step lengths and turn
angles over the whole input after dropping `NaN`s; raises when either pool
is empty. -/
def sample (ops : RealOps F) (K : Nat) (rng : Nat → Nat)
    (steps : List (StepRow F)) : Except String (List (AvailRow F)) :=
  let pool_len := steps.filterMap (fun r => r.step_len_m)
  let pool_turn := steps.filterMap (fun r => r.turn_rad)
  if pool_len = [] ∨ pool_turn = [] then
    Except.error "Not enough steps to sample available steps."
  else Except.ok (sampleAux ops K rng pool_len pool_turn 0 steps.enum)

/-- The vectorised `used` frame of `build_used_available`: one row per input
row, `stratum_id` equal to the row's index (`steps.index`). -/
def mkUsed (ops : RealOps F) (cfg : StepsCfg) (i : Nat) (r : StepRow F) :
    DesignRow F :=
  let ll := r.step_len_m.map (fun l => ops.log (l + eps))
  { stratum_id := i, id := r.id, time := r.time,
    x_end := r.x_m, y_end := r.y_m,
    heading_step := r.heading_rad,
    log_l := ll,
    cos_turn := r.turn_rad.map ops.cos,
    log_l2 := if cfg.include_log_l2 then ll.map (fun x => x ^ 2) else none,
    is_used := 1 }

/-- `build_used_available` lines 62-68: recompute `log_l` for an available
row from the realized displacement (looking the origin row up by
`stratum_id`), set the `cos_turn` placeholder to `1.0`, optionally square the
log length. -/
def availToDesign (ops : RealOps F) (cfg : StepsCfg) (steps : List (StepRow F))
    (a : AvailRow F) : DesignRow F :=
  let r := steps.getD a.stratum_id default
  let ll := ops.log (hypot ops (a.x_end - r.x_prev) (a.y_end - r.y_prev) + eps)
  { stratum_id := a.stratum_id, id := a.id, time := a.time,
    x_end := a.x_end, y_end := a.y_end,
    heading_step := some a.heading_step,
    log_l := some ll,
    cos_turn := some 1,
    log_l2 := if cfg.include_log_l2 then some (ll ^ 2) else none,
    is_used := a.is_used }

/-- `build_used_available`: the used frame followed by the available frame. -/
def build_used_available (ops : RealOps F) (cfg : StepsCfg) (rng : Nat → Nat)
    (reg : List (StepRow F)) : Except String (List (DesignRow F)) :=
  match sample ops cfg.K_available rng reg with
  | Except.error e => Except.error e
  | Except.ok avail =>
      Except.ok ((reg.enum.map (fun p => mkUsed ops cfg p.1 p.2)) ++
        avail.map (availToDesign ops cfg reg))

@[simp] theorem mkUsed_stratum_id (ops : RealOps F) (cfg : StepsCfg) (i : Nat)
    (r : StepRow F) : (mkUsed ops cfg i r).stratum_id = i := rfl

@[simp] theorem mkUsed_is_used (ops : RealOps F) (cfg : StepsCfg) (i : Nat)
    (r : StepRow F) : (mkUsed ops cfg i r).is_used = 1 := rfl

@[simp] theorem mkUsed_time (ops : RealOps F) (cfg : StepsCfg) (i : Nat)
    (r : StepRow F) : (mkUsed ops cfg i r).time = r.time := rfl

@[simp] theorem mkUsed_x_end (ops : RealOps F) (cfg : StepsCfg) (i : Nat)
    (r : StepRow F) : (mkUsed ops cfg i r).x_end = r.x_m := rfl

@[simp] theorem mkUsed_y_end (ops : RealOps F) (cfg : StepsCfg) (i : Nat)
    (r : StepRow F) : (mkUsed ops cfg i r).y_end = r.y_m := rfl

@[simp] theorem availToDesign_stratum_id (ops : RealOps F) (cfg : StepsCfg)
    (steps : List (StepRow F)) (a : AvailRow F) :
    (availToDesign ops cfg steps a).stratum_id = a.stratum_id := rfl

@[simp] theorem availToDesign_is_used (ops : RealOps F) (cfg : StepsCfg)
    (steps : List (StepRow F)) (a : AvailRow F) :
    (availToDesign ops cfg steps a).is_used = a.is_used := rfl

@[simp] theorem availToDesign_time (ops : RealOps F) (cfg : StepsCfg)
    (steps : List (StepRow F)) (a : AvailRow F) :
    (availToDesign ops cfg steps a).time = a.time := rfl

@[simp] theorem availToDesign_x_end (ops : RealOps F) (cfg : StepsCfg)
    (steps : List (StepRow F)) (a : AvailRow F) :
    (availToDesign ops cfg steps a).x_end = a.x_end := rfl

@[simp] theorem availToDesign_y_end (ops : RealOps F) (cfg : StepsCfg)
    (steps : List (StepRow F)) (a : AvailRow F) :
    (availToDesign ops cfg steps a).y_end = a.y_end := rfl

@[simp] theorem availRowOf_stratum_id (ops : RealOps F) (K : Nat)
    (rng : Nat → Nat) (pl pt : List F) (c idx : Nat) (r : StepRow F) (h : F)
    (k : Nat) : (availRowOf ops K rng pl pt c idx r h k).stratum_id = idx := rfl

@[simp] theorem availRowOf_row_id (ops : RealOps F) (K : Nat)
    (rng : Nat → Nat) (pl pt : List F) (c idx : Nat) (r : StepRow F) (h : F)
    (k : Nat) : (availRowOf ops K rng pl pt c idx r h k).id = r.id := rfl

@[simp] theorem availRowOf_time (ops : RealOps F) (K : Nat)
    (rng : Nat → Nat) (pl pt : List F) (c idx : Nat) (r : StepRow F) (h : F)
    (k : Nat) : (availRowOf ops K rng pl pt c idx r h k).time = r.time := rfl

@[simp] theorem availRowOf_is_used (ops : RealOps F) (K : Nat)
    (rng : Nat → Nat) (pl pt : List F) (c idx : Nat) (r : StepRow F) (h : F)
    (k : Nat) : (availRowOf ops K rng pl pt c idx r h k).is_used = 0 := rfl

theorem availRowOf_endpoint (ops : RealOps F) (K : Nat)
    (rng : Nat → Nat) (pl pt : List F) (c idx : Nat) (r : StepRow F) (h : F)
    (k : Nat) : ∃ len hd,
    (availRowOf ops K rng pl pt c idx r h k).x_end = r.x_prev + len * ops.sin hd ∧
    (availRowOf ops K rng pl pt c idx r h k).y_end = r.y_prev + len * ops.cos hd :=
  ⟨_, _, rfl, rfl⟩

theorem mkUsed_enumFrom_filter_lt (ops : RealOps F) (cfg : StepsCfg)
    (l : List (StepRow F)) :
    ∀ (n i : Nat), i < n →
    ((List.enumFrom n l).map (fun p => mkUsed ops cfg p.1 p.2)).filter
      (fun r => r.stratum_id = i) = [] := by
  induction l with
  | nil => intro n i _; rfl
  | cons a t ih =>
    intro n i hi
    rw [List.enumFrom_cons]
    simp only [List.map_cons, List.filter_cons, mkUsed_stratum_id]
    rw [if_neg (by simp; omega)]
    exact ih (n + 1) i (by omega)

theorem used_filter_eq (ops : RealOps F) (cfg : StepsCfg)
    (l : List (StepRow F)) :
    ∀ (n i : Nat), n ≤ i → i < n + l.length →
    ((List.enumFrom n l).map (fun p => mkUsed ops cfg p.1 p.2)).filter
      (fun r => r.stratum_id = i) =
      [mkUsed ops cfg i (l.getD (i - n) default)] := by
  induction l with
  | nil => intro n i h1 h2; simp at h2; omega
  | cons a t ih =>
    intro n i h1 h2
    rw [List.enumFrom_cons]
    simp only [List.map_cons, List.filter_cons, mkUsed_stratum_id]
    by_cases hni : n = i
    · subst hni
      rw [if_pos (by simp)]
      rw [mkUsed_enumFrom_filter_lt ops cfg t (n + 1) n (by omega)]
      simp
    · rw [if_neg (by simp; omega)]
      have h1' : n + 1 ≤ i := by omega
      have h2' : i < (n + 1) + t.length := by simp at h2; omega
      rw [ih (n + 1) i h1' h2']
      have : (a :: t).getD (i - n) default = t.getD (i - (n + 1)) default := by
        have hd : i - n = (i - (n + 1)) + 1 := by omega
        rw [hd, List.getD_cons_succ]
      rw [this]

theorem sampleAux_stratum_mem (ops : RealOps F) (K : Nat) (rng : Nat → Nat)
    (pl pt : List F) :
    ∀ (c : Nat) (pairs : List (Nat × StepRow F)) (a : AvailRow F),
      a ∈ sampleAux ops K rng pl pt c pairs →
      a.stratum_id ∈ pairs.map Prod.fst := by
  intro c pairs
  induction pairs generalizing c with
  | nil => intro a ha; simp [sampleAux] at ha
  | cons p rest ih =>
    intro a ha
    obtain ⟨idx, r⟩ := p
    rw [sampleAux] at ha
    simp only [List.map_cons]
    cases hh : r.heading_rad with
    | none =>
      rw [hh] at ha
      exact List.mem_cons_of_mem _ (ih c a ha)
    | some h =>
      rw [hh] at ha
      simp only [List.mem_append] at ha
      cases ha with
      | inl h1 =>
        simp only [List.mem_map, List.mem_range] at h1
        obtain ⟨k, _, hk⟩ := h1
        rw [← hk]
        exact List.mem_cons_self _ _
      | inr h2 => exact List.mem_cons_of_mem _ (ih (c + 2 * K) a h2)

theorem sampleAux_filter_lt (ops : RealOps F) (K : Nat) (rng : Nat → Nat)
    (pl pt : List F) (t : List (StepRow F)) (n c i : Nat) (hi : i < n) :
    (sampleAux ops K rng pl pt c (List.enumFrom n t)).filter
      (fun a => a.stratum_id = i) = [] := by
  rw [List.filter_eq_nil_iff]
  intro a ha
  have hmem := sampleAux_stratum_mem ops K rng pl pt c (List.enumFrom n t) a ha
  rw [List.enumFrom_map_fst] at hmem
  rw [List.mem_range'] at hmem
  obtain ⟨j, _, hj⟩ := hmem
  simp
  omega

theorem sampleAux_filter_spec (ops : RealOps F) (K : Nat) (rng : Nat → Nat)
    (pl pt : List F) (t : List (StepRow F)) :
    ∀ (n c i : Nat), n ≤ i → i < n + t.length →
      (t.getD (i - n) default).heading_rad.isSome →
      ((sampleAux ops K rng pl pt c (List.enumFrom n t)).filter
          (fun a => a.stratum_id = i)).length = K ∧
      ∀ a ∈ (sampleAux ops K rng pl pt c (List.enumFrom n t)).filter
          (fun a => a.stratum_id = i),
        a.id = (t.getD (i - n) default).id ∧
        a.time = (t.getD (i - n) default).time ∧
        a.is_used = 0 ∧
        ∃ len hd,
          a.x_end = (t.getD (i - n) default).x_prev + len * ops.sin hd ∧
          a.y_end = (t.getD (i - n) default).y_prev + len * ops.cos hd := by
  induction t with
  | nil => intro n i c h1 h2; simp at h2; omega
  | cons r rest ih =>
    intro n c i h1 h2 hh
    rw [List.enumFrom_cons]
    by_cases hni : n = i
    · subst hni
      have hget : (r :: rest).getD (n - n) default = r := by
        rw [Nat.sub_self, List.getD_cons_zero]
      rw [hget] at hh ⊢
      cases hr : r.heading_rad with
      | none => rw [hr] at hh; simp at hh
      | some h =>
        rw [sampleAux, hr]
        rw [List.filter_append]
        rw [sampleAux_filter_lt ops K rng pl pt rest (n + 1) (c + 2 * K) n
          (by omega)]
        rw [List.append_nil]
        have hall : ((List.range K).map
            (availRowOf ops K rng pl pt c n r h)).filter
            (fun a => a.stratum_id = n) =
            (List.range K).map (availRowOf ops K rng pl pt c n r h) := by
          rw [List.filter_eq_self]
          intro a ha
          simp only [List.mem_map] at ha
          obtain ⟨k, _, hk⟩ := ha
          rw [← hk]
          simp
        rw [hall]
        constructor
        · rw [List.length_map, List.length_range]
        · intro a ha
          simp only [List.mem_map] at ha
          obtain ⟨k, _, hk⟩ := ha
          rw [← hk]
          refine ⟨rfl, rfl, rfl, ?_⟩
          exact availRowOf_endpoint ops K rng pl pt c n r h k
    · have hgt : n + 1 ≤ i := by omega
      have hget : (r :: rest).getD (i - n) default =
          rest.getD (i - (n + 1)) default := by
        have hd : i - n = (i - (n + 1)) + 1 := by omega
        rw [hd, List.getD_cons_succ]
      rw [hget] at hh ⊢
      cases hr : r.heading_rad with
      | none =>
        rw [sampleAux, hr]
        exact ih (n + 1) c i hgt (by simp at h2; omega) hh
      | some h =>
        rw [sampleAux, hr]
        rw [List.filter_append]
        have hnone : ((List.range K).map
            (availRowOf ops K rng pl pt c n r h)).filter
            (fun a => a.stratum_id = i) = [] := by
          rw [List.filter_eq_nil_iff]
          intro a ha
          simp only [List.mem_map] at ha
          obtain ⟨k, _, hk⟩ := ha
          rw [← hk]
          simp
          omega
        rw [hnone, List.nil_append]
        exact ih (n + 1) (c + 2 * K) i hgt (by simp at h2; omega) hh

theorem build_used_available_ok (ops : RealOps F) (cfg : StepsCfg)
    (rng : Nat → Nat) (reg : List (StepRow F))
    (hp : ¬ (reg.filterMap (fun r => r.step_len_m) = [] ∨
      reg.filterMap (fun r => r.turn_rad) = [])) :
    build_used_available ops cfg rng reg = Except.ok
      ((reg.enum.map (fun p => mkUsed ops cfg p.1 p.2)) ++
        (sampleAux ops cfg.K_available rng
          (reg.filterMap (fun r => r.step_len_m))
          (reg.filterMap (fun r => r.turn_rad)) 0 reg.enum).map
          (availToDesign ops cfg reg)) := by
  rw [build_used_available, sample, if_neg hp]

/-- C2: for a regularized input whose rows all have a defined heading (as the
regularizer guarantees for retained rows), a successful build emits, for
every input row index `i`, exactly `K+1` design rows with `stratum_id = i`;
exactly one has `is_used = 1` (the used row, at the observed endpoint), the
other `K` have `is_used = 0`; and every row of the stratum carries the
source row's timestamp and an endpoint derived from the source row's origin
`(x_prev, y_prev)`. -/
theorem build_used_available_strata (ops : RealOps F) (cfg : StepsCfg)
    (rng : Nat → Nat) (reg : List (StepRow F)) (out : List (DesignRow F))
    (hok : build_used_available ops cfg rng reg = Except.ok out)
    (hhead : ∀ r ∈ reg, r.heading_rad.isSome)
    (i : Nat) (hi : i < reg.length) :
    (out.filter (fun r => r.stratum_id = i)).length = cfg.K_available + 1 ∧
    (out.filter (fun r => r.stratum_id = i)).countP
      (fun r => r.is_used = 1) = 1 ∧
    (out.filter (fun r => r.stratum_id = i)).countP
      (fun r => r.is_used = 0) = cfg.K_available ∧
    ∀ r ∈ out.filter (fun r => r.stratum_id = i),
      r.time = (reg.getD i default).time ∧
      (r.is_used = 1 → r.x_end = (reg.getD i default).x_m ∧
        r.y_end = (reg.getD i default).y_m) ∧
      (r.is_used = 0 → ∃ len hd,
        r.x_end = (reg.getD i default).x_prev + len * ops.sin hd ∧
        r.y_end = (reg.getD i default).y_prev + len * ops.cos hd) := by
  by_cases hp : (reg.filterMap (fun r => r.step_len_m) = [] ∨
      reg.filterMap (fun r => r.turn_rad) = [])
  · rw [build_used_available, sample, if_pos hp] at hok
    exact absurd hok (by simp)
  rw [build_used_available_ok ops cfg rng reg hp, Except.ok.injEq] at hok
  subst hok
  have hsi : reg.getD i default ∈ reg := by
    rw [List.getD_eq_getElem reg default hi]
    exact List.getElem_mem hi
  have hsome : (reg.getD i default).heading_rad.isSome := hhead _ hsi
  have henum : reg.enum = List.enumFrom 0 reg := rfl
  have hused : (reg.enum.map (fun p => mkUsed ops cfg p.1 p.2)).filter
      (fun r => r.stratum_id = i) = [mkUsed ops cfg i (reg.getD i default)] := by
    rw [henum, used_filter_eq ops cfg reg 0 i (Nat.zero_le i) (by omega),
      Nat.sub_zero]
  have hcomp : ((fun r : DesignRow F => decide (r.stratum_id = i)) ∘
      availToDesign ops cfg reg) =
      (fun a : AvailRow F => decide (a.stratum_id = i)) := by
    funext a
    simp [Function.comp]
  have hsamp := sampleAux_filter_spec ops cfg.K_available rng
    (reg.filterMap (fun r => r.step_len_m))
    (reg.filterMap (fun r => r.turn_rad)) reg 0 0 i (Nat.zero_le i)
    (by omega) (by rw [Nat.sub_zero]; exact hsome)
  rw [Nat.sub_zero] at hsamp
  obtain ⟨hlenK, hprops⟩ := hsamp
  rw [← henum] at hlenK hprops
  rw [List.filter_append, hused, List.filter_map, hcomp]
  constructor
  · rw [List.length_append, List.length_map, hlenK, List.length_singleton]
    omega
  constructor
  · rw [List.countP_append, List.countP_map]
    have h1 : List.countP (fun r => decide (r.is_used = 1))
        [mkUsed ops cfg i (reg.getD i default)] = 1 := by
      simp [List.countP_cons]
    have h2 : List.countP ((fun r : DesignRow F => decide (r.is_used = 1)) ∘
        availToDesign ops cfg reg)
        ((sampleAux ops cfg.K_available rng
          (reg.filterMap (fun r => r.step_len_m))
          (reg.filterMap (fun r => r.turn_rad)) 0 reg.enum).filter
          (fun a => a.stratum_id = i)) = 0 := by
      rw [List.countP_eq_zero]
      intro a ha
      have := (hprops a ha).2.2.1
      simp [Function.comp, this]
    rw [h1, h2]
  constructor
  · rw [List.countP_append, List.countP_map]
    have h1 : List.countP (fun r => decide (r.is_used = 0))
        [mkUsed ops cfg i (reg.getD i default)] = 0 := by
      simp [List.countP_cons]
    have h2 : List.countP ((fun r : DesignRow F => decide (r.is_used = 0)) ∘
        availToDesign ops cfg reg)
        ((sampleAux ops cfg.K_available rng
          (reg.filterMap (fun r => r.step_len_m))
          (reg.filterMap (fun r => r.turn_rad)) 0 reg.enum).filter
          (fun a => a.stratum_id = i)) =
        ((sampleAux ops cfg.K_available rng
          (reg.filterMap (fun r => r.step_len_m))
          (reg.filterMap (fun r => r.turn_rad)) 0 reg.enum).filter
          (fun a => a.stratum_id = i)).length := by
      rw [List.countP_eq_length]
      intro a ha
      have := (hprops a ha).2.2.1
      simp [Function.comp, this]
    rw [h1, h2, hlenK]
    omega
  · intro r hr
    rw [List.mem_append] at hr
    cases hr with
    | inl h1 =>
      rw [List.mem_singleton] at h1
      subst h1
      refine ⟨rfl, fun _ => ⟨rfl, rfl⟩, fun h0 => ?_⟩
      rw [mkUsed_is_used] at h0
      omega
    | inr h2 =>
      rw [List.mem_map] at h2
      obtain ⟨a, ha, hra⟩ := h2
      obtain ⟨haid, hatime, haused, len, hd, hax, hay⟩ := hprops a ha
      subst hra
      refine ⟨by rw [availToDesign_time, hatime], fun h1 => ?_, fun _ => ?_⟩
      · rw [availToDesign_is_used, haused] at h1
        omega
      · exact ⟨len, hd, by rw [availToDesign_x_end, hax],
          by rw [availToDesign_y_end, hay]⟩

/-- C4: the used/available build fails (the design's
`InsufficientDataError`, raised as `ValueError("Not enough steps...")` in
the source) whenever the pooled step-length distribution or the pooled
turn-angle distribution over the entire input is empty. -/
theorem build_insufficient_data (ops : RealOps F) (cfg : StepsCfg)
    (rng : Nat → Nat) (reg : List (StepRow F))
    (hpool : reg.filterMap (fun r => r.step_len_m) = [] ∨
             reg.filterMap (fun r => r.turn_rad) = []) :
    build_used_available ops cfg rng reg =
      Except.error "Not enough steps to sample available steps." := by
  rw [build_used_available, sample]
  rw [if_pos hpool]

/-- A one-row regularized demo table over `ℚ` (id 1, time 0, endpoint (5,5),
origin (0,0), defined heading, step length and turn). -/
def demoReg : List (StepRow ℚ) := [⟨1, 0, 5, 5, 0, 0, some 1, none, some 7, some 1⟩]

/-- Demo configuration: 2 available alternatives, no squared log length. -/
def demoCfg : StepsCfg := ⟨2, false⟩

/-- The output of `build_used_available` on the demo table. -/
def demoOut : List (DesignRow ℚ) :=
  (demoReg.enum.map (fun p => mkUsed qOps demoCfg p.1 p.2)) ++
    (sampleAux qOps demoCfg.K_available (fun _ => 0)
      (demoReg.filterMap (fun r => r.step_len_m))
      (demoReg.filterMap (fun r => r.turn_rad)) 0 demoReg.enum).map
      (availToDesign qOps demoCfg demoReg)

/-- C2 witness: on the demo table with `K = 2`, stratum 0 of the successful
build has exactly 3 rows, exactly one used row (at the observed endpoint
(5,5)), two available rows, all carrying timestamp 0 and endpoints derived
from the origin (0,0). -/
theorem build_used_available_strata_witness :
    build_used_available qOps demoCfg (fun _ => 0) demoReg
        = Except.ok demoOut ∧
    (demoOut.filter (fun r => r.stratum_id = 0)).length = 3 ∧
    (demoOut.filter (fun r => r.stratum_id = 0)).countP
      (fun r => r.is_used = 1) = 1 ∧
    (demoOut.filter (fun r => r.stratum_id = 0)).countP
      (fun r => r.is_used = 0) = 2 ∧
    ∀ r ∈ demoOut.filter (fun r => r.stratum_id = 0),
      r.time = 0 ∧
      (r.is_used = 1 → r.x_end = 5 ∧ r.y_end = 5) ∧
      (r.is_used = 0 → ∃ len hd, r.x_end = 0 + len * qOps.sin hd ∧
        r.y_end = 0 + len * qOps.cos hd) := by
  have hok : build_used_available qOps demoCfg (fun _ => 0) demoReg
      = Except.ok demoOut :=
    build_used_available_ok qOps demoCfg (fun _ => 0) demoReg
      (by simp [demoReg])
  have h := build_used_available_strata qOps demoCfg (fun _ => 0) demoReg
    demoOut hok
    (by intro r hr; simp [demoReg] at hr; subst hr; rfl)
    0 (by simp [demoReg])
  exact ⟨hok, h.1, h.2.1, h.2.2.1, h.2.2.2⟩

/-- C4 witness: an input with one row whose observed step length and turn are
both undefined (so both pools are empty) makes the build fail. -/
theorem build_insufficient_data_witness :
    build_used_available qOps ⟨2, true⟩ (fun _ => 0)
      [⟨1, 0, 0, 0, 0, 0, some 1, none, none, none⟩] =
      Except.error "Not enough steps to sample available steps." := by
  apply build_insufficient_data
  left
  simp

/-! ## `validate.py`: temporally blocked cross-validation -/

/-- One sanitized design row as read by `kfold_time_cv`: id and time for the
fold assignment, stratum and used flag for scoring, and the selected
covariate vector (the `cols` columns). -/
structure CVRow (F : Type) where
  id : Nat
  time : Int
  stratum_id : Nat
  is_used : Nat
  x : List F
deriving DecidableEq

/-- The `d.sort_values(["id", "time"])` comparison. -/
def rowLE (a b : CVRow F) : Bool :=
  decide (a.id < b.id) || (decide (a.id = b.id) && decide (a.time ≤ b.time))

theorem rowLE_trans (a b c : CVRow F) (h1 : rowLE a b = true)
    (h2 : rowLE b c = true) : rowLE a c = true := by
  simp only [rowLE, Bool.or_eq_true, Bool.and_eq_true, decide_eq_true_eq] at *
  omega

theorem rowLE_total (a b : CVRow F) : (rowLE a b || rowLE b a) = true := by
  simp only [rowLE, Bool.or_eq_true, Bool.and_eq_true, decide_eq_true_eq]
  omega

/-- `d.groupby("id")["time"].rank(method="first")` on the sorted frame
followed by `% k`: each row's label is (1 + number of same-id rows seen so
far) mod k; `counts` tracks the rows seen per id. -/
def rankFoldsAux (k : Nat) (counts : Nat → Nat) :
    List (CVRow F) → List (CVRow F × Nat)
  | [] => []
  | r :: rest =>
    (r, (counts r.id + 1) % k) ::
      rankFoldsAux k (fun j => if j = r.id then counts j + 1 else counts j) rest

/-- The fold labels of `kfold_time_cv` lines 15-18: sort by (id, time), rank
each individual's rows by time (`method="first"` = position in the sorted
frame), take rank mod k. -/
def foldLabels (k : Nat) (design : List (CVRow F)) : List (CVRow F × Nat) :=
  rankFoldsAux k (fun _ => 0) (design.mergeSort rowLE)

theorem rankFoldsAux_filter (k sid : Nat) :
    ∀ (l : List (CVRow F)) (counts : Nat → Nat),
    (rankFoldsAux k counts l).filter (fun p => p.1.id = sid) =
      ((l.filter (fun r => r.id = sid)).enumFrom (counts sid)).map
        (fun p => (p.2, (p.1 + 1) % k)) := by
  intro l
  induction l with
  | nil => intro counts; rfl
  | cons r rest ih =>
    intro counts
    rw [rankFoldsAux]
    simp only [List.filter_cons]
    by_cases hid : r.id = sid
    · rw [if_pos (by simp [hid]), if_pos (by simp [hid])]
      rw [List.enumFrom_cons]
      simp only [List.map_cons]
      rw [ih]
      simp [hid]
    · rw [if_neg (by simp [hid]), if_neg (by simp [hid])]
      rw [ih]
      rw [if_neg (fun h => hid h.symm)]

/-- C3: for every individual `sid` and fold count `k > 0`, the
cross-validation assignment labels that individual's rows, taken in time
order (position `j` in the sorted-by-(id,time) frame restricted to `sid`),
with fold `(j+1) mod k`; all labels are `< k` (so the classes partition the
rows into at most `k` disjoint blocks); the labelled rows are ordered by
time; and when the individual has at least `k` rows every fold `f < k` is
non-empty.  The assignment is a pure function of the input, hence
deterministic for a fixed seed and row order. -/
theorem kfold_time_cv_folds (k : Nat) (d : List (CVRow F)) (sid : Nat)
    (hk : 0 < k) :
    ((foldLabels k d).filter (fun p => p.1.id = sid) =
      (((d.mergeSort rowLE).filter (fun r => r.id = sid)).enum).map
        (fun p => (p.2, (p.1 + 1) % k))) ∧
    (∀ p ∈ (foldLabels k d).filter (fun p => p.1.id = sid), p.2 < k) ∧
    List.Pairwise (fun a b => a.1.time ≤ b.1.time)
      ((foldLabels k d).filter (fun p => p.1.id = sid)) ∧
    (k ≤ d.countP (fun r => r.id = sid) →
      ∀ f, f < k →
        ∃ p ∈ (foldLabels k d).filter (fun p => p.1.id = sid), p.2 = f) := by
  have hmain : (foldLabels k d).filter (fun p => p.1.id = sid) =
      (((d.mergeSort rowLE).filter (fun r => r.id = sid)).enum).map
        (fun p => (p.2, (p.1 + 1) % k)) := by
    rw [foldLabels, rankFoldsAux_filter k sid (d.mergeSort rowLE) (fun _ => 0)]
    rfl
  have hsorted : List.Pairwise (fun a b => rowLE a b = true)
      (d.mergeSort rowLE) :=
    List.sorted_mergeSort rowLE_trans rowLE_total d
  refine ⟨hmain, ?_, ?_, ?_⟩
  · intro p hp
    rw [hmain, List.mem_map] at hp
    obtain ⟨q, _, hq⟩ := hp
    rw [← hq]
    exact Nat.mod_lt _ hk
  · rw [hmain]
    have hfil : List.Pairwise (fun a b => rowLE a b = true)
        ((d.mergeSort rowLE).filter (fun r => r.id = sid)) :=
      hsorted.filter _
    have h1 : List.Pairwise (fun a b : CVRow F => a.time ≤ b.time)
        ((d.mergeSort rowLE).filter (fun r => r.id = sid)) := by
      refine hfil.imp_of_mem ?_
      intro a b ha hb hab
      have haid : a.id = sid := by
        have := (List.mem_filter.mp ha).2
        simpa using this
      have hbid : b.id = sid := by
        have := (List.mem_filter.mp hb).2
        simpa using this
      simp only [rowLE, Bool.or_eq_true, Bool.and_eq_true,
        decide_eq_true_eq] at hab
      omega
    have h2 : List.Pairwise
        (fun a b : Nat × CVRow F => a.2.time ≤ b.2.time)
        (((d.mergeSort rowLE).filter (fun r => r.id = sid)).enum) := by
      rw [← List.enum_map_snd
        ((d.mergeSort rowLE).filter (fun r => r.id = sid))] at h1
      exact (List.pairwise_map (R := fun a b : CVRow F => a.time ≤ b.time)
        (f := Prod.snd)).mp h1
    rw [List.pairwise_map]
    exact h2
  · intro hn f hf
    have hmk : k ≤ ((d.mergeSort rowLE).filter (fun r => r.id = sid)).length := by
      rw [← List.countP_eq_length_filter]
      rw [List.Perm.countP_eq _ (List.mergeSort_perm d rowLE)]
      exact hn
    have hjk : (if f = 0 then k - 1 else f - 1) < k := by
      by_cases h0 : f = 0 <;> simp [h0] <;> omega
    have hjm : (if f = 0 then k - 1 else f - 1) <
        ((d.mergeSort rowLE).filter (fun r => r.id = sid)).length :=
      lt_of_lt_of_le hjk hmk
    have hje : (if f = 0 then k - 1 else f - 1) <
        (((d.mergeSort rowLE).filter (fun r => r.id = sid)).enum).length := by
      rw [List.enum_length]
      exact hjm
    refine ⟨(((((d.mergeSort rowLE).filter (fun r => r.id = sid)).enum)[
        (if f = 0 then k - 1 else f - 1)]).2,
      ((((d.mergeSort rowLE).filter (fun r => r.id = sid)).enum)[
        (if f = 0 then k - 1 else f - 1)]).1.succ % k), ?_, ?_⟩
    · rw [hmain, List.mem_map]
      exact ⟨(((d.mergeSort rowLE).filter (fun r => r.id = sid)).enum)[
          (if f = 0 then k - 1 else f - 1)], List.getElem_mem hje, rfl⟩
    · simp only [List.getElem_enum, Nat.succ_eq_add_one]
      split_ifs with h0
      · subst h0
        rw [Nat.sub_add_cancel hk, Nat.mod_self]
      · rw [Nat.sub_add_cancel (by omega)]
        exact Nat.mod_eq_of_lt hf

/-- A three-row one-individual demo design over `ℚ` (times deliberately out
of order). -/
def demoCV : List (CVRow ℚ) :=
  [⟨1, 5, 0, 1, []⟩, ⟨1, 3, 1, 0, []⟩, ⟨1, 8, 2, 1, []⟩]

/-- C3 witness: the fold assignment on the demo design with `k = 2`,
individual 1. -/
theorem kfold_time_cv_folds_witness :
    ((foldLabels 2 demoCV).filter (fun p => p.1.id = 1) =
      (((demoCV.mergeSort rowLE).filter (fun r => r.id = 1)).enum).map
        (fun p => (p.2, (p.1 + 1) % 2))) ∧
    (∀ p ∈ (foldLabels 2 demoCV).filter (fun p => p.1.id = 1), p.2 < 2) ∧
    List.Pairwise (fun a b => a.1.time ≤ b.1.time)
      ((foldLabels 2 demoCV).filter (fun p => p.1.id = 1)) ∧
    (2 ≤ demoCV.countP (fun r => r.id = 1) →
      ∀ f, f < 2 →
        ∃ p ∈ (foldLabels 2 demoCV).filter (fun p => p.1.id = 1), p.2 = f) :=
  kfold_time_cv_folds 2 demoCV 1 (by norm_num)

/-- `softmax_by_stratum` on the (stratum, linear-predictor) pairs of the test
rows: per stratum, subtract the stratum maximum, exponentiate, normalise. -/
def maxList : List F → F
  | [] => 0
  | d :: ds => ds.foldl max d

/-- `softmax_by_stratum`. -/
def softmax_by_stratum (ops : RealOps F) (pairs : List (Nat × F)) : List F :=
  pairs.map (fun p =>
    let m := maxList ((pairs.filter (fun q => q.1 = p.1)).map (fun q => q.2))
    ops.exp (p.2 - m) /
      (((pairs.filter (fun q => q.1 = p.1)).map
        (fun q => ops.exp (q.2 - m))).sum))

/-- `test[cols] @ res.params`. -/
def dotList (a b : List F) : F := (List.zipWith (fun x y => x * y) a b).sum

/-- Descending rank of a test row's linear predictor within its stratum,
`method="min"`: 1 + the number of strictly larger predictors. -/
def rankOf (test : List (CVRow F)) (eta : CVRow F → F) (r : CVRow F) : Nat :=
  ((test.filter (fun q => q.stratum_id = r.stratum_id)).countP
    (fun q => eta r < eta q)) + 1

/-- The per-fold metric values appended by the loop body. -/
structure FoldMetrics (F : Type) where
  log_score : F
  rank_mean : F
  rank_top1 : F

/-- Scoring of one held-out fold given fitted coefficients. -/
def scoreFold (ops : RealOps F) (params : List F) (test : List (CVRow F)) :
    FoldMetrics F :=
  let eta := fun r : CVRow F => dotList r.x params
  let p := softmax_by_stratum ops (test.map (fun r => (r.stratum_id, eta r)))
  let used := (test.zip p).filter (fun q => q.1.is_used = 1)
  { log_score := listMean (used.map (fun q => -(ops.log q.2))),
    rank_mean := listMean (used.map (fun q => ((rankOf test eta q.1 : Nat) : F))),
    rank_top1 := listMean (used.map (fun q =>
      if rankOf test eta q.1 = 1 then (1:F) else 0)) }

/-- The `metrics` defaultdict: one value list per metric plus the error
list. -/
structure CVMetrics (F : Type) where
  log_score : List F
  rank_mean : List F
  rank_top1 : List F
  errors : List String
deriving DecidableEq

/-- `train = d[d["t_fold"] != f]` (rows only; the labels are dropped). -/
def trainOf (labeled : List (CVRow F × Nat)) (f : Nat) : List (CVRow F) :=
  (labeled.filter (fun p => p.2 ≠ f)).map (fun p => p.1)

/-- `test = d[d["t_fold"] == f]`. -/
def testOf (labeled : List (CVRow F × Nat)) (f : Nat) : List (CVRow F) :=
  (labeled.filter (fun p => p.2 = f)).map (fun p => p.1)

/-- The fold loop of `kfold_time_cv`.  The statistical backend
(`ConditionalLogit(...).fit`) is external to the core, so fitting is a
parameter `fit` mapping the training rows to coefficients or a failure; on
failure the error string is recorded and the loop `break`s — no later fold
is fitted or scored. -/
def cvLoop (ops : RealOps F) (fit : List (CVRow F) → Except String (List F))
    (labeled : List (CVRow F × Nat)) : List Nat → CVMetrics F
  | [] => ⟨[], [], [], []⟩
  | f :: rest =>
    match fit (trainOf labeled f) with
    | Except.error e => ⟨[], [], [], [e]⟩
    | Except.ok params =>
      let m := scoreFold ops params (testOf labeled f)
      let tailM := cvLoop ops fit labeled rest
      ⟨m.log_score :: tailM.log_score, m.rank_mean :: tailM.rank_mean,
       m.rank_top1 :: tailM.rank_top1, tailM.errors⟩

/-- The aggregated return value: `out = {key: mean(values)}` for the metric
keys that received at least one value, plus the `errors` key when
non-empty (always carried here; `[]` when no fold failed). -/
structure CVOut (F : Type) where
  log_score : Option F
  rank_mean : Option F
  rank_top1 : Option F
  errors : List String
deriving DecidableEq

/-- `kfold_time_cv`: label folds, loop over `range k`, aggregate. -/
def kfold_time_cv (ops : RealOps F)
    (fit : List (CVRow F) → Except String (List F))
    (design : List (CVRow F)) (k : Nat) : CVOut F :=
  let m := cvLoop ops fit (foldLabels k design) (List.range k)
  ⟨if m.log_score = [] then none else some (listMean m.log_score),
   if m.rank_mean = [] then none else some (listMean m.rank_mean),
   if m.rank_top1 = [] then none else some (listMean m.rank_top1),
   m.errors⟩

theorem cvLoop_halts_on_error (ops : RealOps F)
    (fit : List (CVRow F) → Except String (List F))
    (labeled : List (CVRow F × Nat)) :
    ∀ (fs : List Nat) (j : Nat) (e : String), j < fs.length →
    (∀ g, g < j → ∃ θ, fit (trainOf labeled (fs.getD g 0)) = Except.ok θ) →
    fit (trainOf labeled (fs.getD j 0)) = Except.error e →
    (cvLoop ops fit labeled fs).errors = [e] ∧
    (cvLoop ops fit labeled fs).log_score.length = j ∧
    (cvLoop ops fit labeled fs).rank_mean.length = j ∧
    (cvLoop ops fit labeled fs).rank_top1.length = j := by
  intro fs
  induction fs with
  | nil => intro j e hj _ _; simp at hj
  | cons f rest ih =>
    intro j e hj hok herr
    cases j with
    | zero =>
      rw [List.getD_cons_zero] at herr
      rw [cvLoop, herr]
      exact ⟨rfl, rfl, rfl, rfl⟩
    | succ j' =>
      obtain ⟨θ, hθ⟩ := hok 0 (by omega)
      rw [List.getD_cons_zero] at hθ
      rw [List.getD_cons_succ] at herr
      have hok' : ∀ g, g < j' →
          ∃ θ, fit (trainOf labeled (rest.getD g 0)) = Except.ok θ := by
        intro g hg
        have := hok (g + 1) (by omega)
        rw [List.getD_cons_succ] at this
        exact this
      have hih := ih j' e (by simp at hj; omega) hok' herr
      rw [cvLoop, hθ]
      simp only [List.length_cons]
      exact ⟨hih.1, by rw [hih.2.1], by rw [hih.2.2.1], by rw [hih.2.2.2]⟩

/-- C9: if fitting fails for cross-validation fold `j` (all earlier folds
having fitted), the failure is recorded as the single entry of the `errors`
list, the loop stops — each metric list holds exactly the `j` folds
completed before the failure, no later fold is fitted or scored — and the
returned metrics carry the non-empty `errors` marker, so the partial means
are never presented as complete, error-free metrics. -/
theorem kfold_fold_failure (ops : RealOps F)
    (fit : List (CVRow F) → Except String (List F))
    (design : List (CVRow F)) (k j : Nat) (e : String) (hj : j < k)
    (hok : ∀ g, g < j →
      ∃ θ, fit (trainOf (foldLabels k design) g) = Except.ok θ)
    (herr : fit (trainOf (foldLabels k design) j) = Except.error e) :
    (cvLoop ops fit (foldLabels k design) (List.range k)).errors = [e] ∧
    (cvLoop ops fit (foldLabels k design) (List.range k)).log_score.length
      = j ∧
    (cvLoop ops fit (foldLabels k design) (List.range k)).rank_mean.length
      = j ∧
    (cvLoop ops fit (foldLabels k design) (List.range k)).rank_top1.length
      = j ∧
    (kfold_time_cv ops fit design k).errors = [e] ∧
    (kfold_time_cv ops fit design k).errors ≠ [] := by
  have hlen : (List.range k).length = k := List.length_range k
  have hgetD : ∀ g, g < k → (List.range k).getD g 0 = g := by
    intro g hg
    rw [List.getD_eq_getElem _ _ (by rw [hlen]; exact hg)]
    exact List.getElem_range g _
  have h := cvLoop_halts_on_error ops fit (foldLabels k design)
    (List.range k) j e (by rw [hlen]; exact hj)
    (by intro g hg; rw [hgetD g (by omega)]; exact hok g hg)
    (by rw [hgetD j hj]; exact herr)
  refine ⟨h.1, h.2.1, h.2.2.1, h.2.2.2, ?_, ?_⟩
  · rw [kfold_time_cv]
    exact h.1
  · rw [kfold_time_cv]
    rw [h.1]
    simp

/-- C9 witness: with a backend failing on the first fold of the demo design,
exactly that one error is recorded, no fold is scored, and the returned
metrics carry the non-empty error marker. -/
theorem kfold_fold_failure_witness :
    (cvLoop qOps (fun _ => Except.error "singular") (foldLabels 2 demoCV)
      (List.range 2)).errors = ["singular"] ∧
    (cvLoop qOps (fun _ => Except.error "singular") (foldLabels 2 demoCV)
      (List.range 2)).log_score.length = 0 ∧
    (cvLoop qOps (fun _ => Except.error "singular") (foldLabels 2 demoCV)
      (List.range 2)).rank_mean.length = 0 ∧
    (cvLoop qOps (fun _ => Except.error "singular") (foldLabels 2 demoCV)
      (List.range 2)).rank_top1.length = 0 ∧
    (kfold_time_cv qOps (fun _ => Except.error "singular") demoCV 2).errors
      = ["singular"] ∧
    (kfold_time_cv qOps (fun _ => Except.error "singular") demoCV 2).errors
      ≠ [] :=
  kfold_fold_failure qOps (fun _ => Except.error "singular") demoCV 2 0
    "singular" (by norm_num)
    (by intro g hg; exact absurd hg (Nat.not_lt_zero g)) rfl

/-! ## `regularize.py`: the track regularizer

The sex and passthrough carry columns (lines 64-81) are per-individual
attributes joined onto the rows; no claim concerns them and they are
omitted.  pandas `sort_values` (an unstable comparison sort) is modelled by
`List.insertionSort` on the same key; tie order is irrelevant to the claims.
`resample` bins (origin at a day boundary, timestamps in integer minutes)
are floor division of the timestamp by the grid interval. -/

/-- One cleaned input fix: the initial
`df[[id, time, lon, lat]].dropna()` / `to_datetime` pass has already removed
undefined cells, so all fields are defined. -/
structure Fix (F : Type) where
  id : Nat
  time : Int
  lon : F
  lat : F
deriving DecidableEq

/-- The configuration field the regularizer reads. -/
structure RegCfg where
  dt_minutes : Nat

/-- `R_EARTH = 6371000.0`. -/
def R_EARTH : F := 6371000

/-- `np.radians`. -/
def radiansOf (ops : RealOps F) (deg : F) : F := deg * ops.pi / 180

/-- `_haversine`. -/
def haversine (ops : RealOps F) (lon1 lat1 lon2 lat2 : F) : F :=
  let lon1r := radiansOf ops lon1
  let lat1r := radiansOf ops lat1
  let lon2r := radiansOf ops lon2
  let lat2r := radiansOf ops lat2
  let dlon := lon2r - lon1r
  let dlat := lat2r - lat1r
  let a := ops.sin (dlat / 2) ^ 2 +
    ops.cos lat1r * ops.cos lat2r * ops.sin (dlon / 2) ^ 2
  2 * R_EARTH * ops.asin (ops.sqrt a)

/-- `_bearing` (the angle wrapped into `[0, 2π)`). -/
def bearing (ops : RealOps F) (lon1 lat1 lon2 lat2 : F) : F :=
  let lon1r := radiansOf ops lon1
  let lat1r := radiansOf ops lat1
  let lon2r := radiansOf ops lon2
  let lat2r := radiansOf ops lat2
  let dlon := lon2r - lon1r
  let y := ops.sin dlon * ops.cos lat2r
  let x := ops.cos lat1r * ops.cos lat2r -
    ops.sin lat1r * ops.sin lat2r * ops.cos dlon
  fmod (ops.atan2 y x + 2 * ops.pi) (2 * ops.pi)

/-- `_to_local_xy`: equirectangular projection about `(lon0, lat0)`. -/
def to_local_xy (ops : RealOps F) (lon lat lon0 lat0 : F) : F × F :=
  (R_EARTH * (radiansOf ops lon - radiansOf ops lon0) *
      ops.cos (radiansOf ops lat0),
   R_EARTH * (radiansOf ops lat - radiansOf ops lat0))

/-- pandas `Series.median`: middle of the sorted values, mean of the two
middles for an even count. -/
def median (l : List F) : F :=
  let s := l.insertionSort (fun a b => a ≤ b)
  if l.length % 2 = 1 then s.getD (l.length / 2) 0
  else (s.getD (l.length / 2 - 1) 0 + s.getD (l.length / 2) 0) / 2

/-- The resample bin of a timestamp. -/
def binOf (dt : Nat) (t : Int) : Int := Int.fdiv t dt

/-- The coordinate values of one resample bin. -/
def binVals (fixes : List (Fix F)) (get : Fix F → F) (dt : Nat) (b : Int) :
    List F :=
  (fixes.filter (fun f => binOf dt f.time = b)).map get

/-- `.resample(...).mean()` for one bin: mean of the fixes in the bin, `NaN`
for an empty bin. -/
def binMean (fixes : List (Fix F)) (get : Fix F → F) (dt : Nat) (b : Int) :
    Option F :=
  if (binVals fixes get dt b).length = 0 then none
  else some ((binVals fixes get dt b).sum / ((binVals fixes get dt b).length : F))

/-- Latest defined entry at or before position `i`. -/
def findPrevSome (l : List (Option F)) (i : Nat) : Option (Nat × F) :=
  ((List.range (i + 1)).reverse).findSome?
    (fun j => (l.getD j none).map (fun v => (j, v)))

/-- Earliest defined entry at or after position `i`. -/
def findNextSome (l : List (Option F)) (i : Nat) : Option (Nat × F) :=
  ((List.range l.length).drop i).findSome?
    (fun j => (l.getD j none).map (fun v => (j, v)))

/-- `Series.interpolate(limit_direction="both")` at one position: defined
values kept; interior gaps linearly interpolated on position; leading and
trailing gaps clamped to the nearest defined value. -/
def interpAt (l : List (Option F)) (i : Nat) : Option F :=
  match l.getD i none with
  | some v => some v
  | none =>
    match findPrevSome l i, findNextSome l i with
    | some pj, some nj => some (pj.2 + (nj.2 - pj.2) *
        (((i : F) - (pj.1 : F)) / ((nj.1 : F) - (pj.1 : F))))
    | some pj, none => some pj.2
    | none, some nj => some nj.2
    | none, none => none

/-- `Series.interpolate(limit_direction="both")`. -/
def interpolate (l : List (Option F)) : List (Option F) :=
  (List.range l.length).map (interpAt l)

/-- One regularized row before the final `dropna` (cells may be `NaN`). -/
structure RRow (F : Type) where
  id : Nat
  time : Int
  lon : Option F
  lat : Option F
  lon_prev : Option F
  lat_prev : Option F
  step_len_m : Option F
  heading_rad : Option F
  heading_prev_rad : Option F
  turn_rad : Option F
  speed_mps : Option F
  x_m : Option F
  y_m : Option F
  x_prev : Option F
  y_prev : Option F
deriving DecidableEq

/-- NaN propagation through a binary numpy operation. -/
def opt2 (f : F → F → F) : Option F → Option F → Option F
  | some a, some b => some (f a b)
  | _, _ => none

/-- NaN propagation through a 4-ary numpy operation. -/
def opt4 (f : F → F → F → F → F) :
    Option F → Option F → Option F → Option F → Option F
  | some a, some b, some c, some d => some (f a b c d)
  | _, _, _, _ => none

/-- The regularized rows of one individual: resample onto the bin grid
spanning the group's time range, interpolate coordinates, shift to build the
previous-row columns, and derive step length, bearing, previous bearing,
turn angle, speed and the local planar coordinates. -/
def regularizeGroup (ops : RealOps F) (cfg : RegCfg) (lon0 lat0 : F)
    (sid : Nat) (fixes : List (Fix F)) : List (RRow F) :=
  match fixes.map (fun f => binOf cfg.dt_minutes f.time) with
  | [] => []
  | b0 :: bs =>
    let bmin := bs.foldl min b0
    let bmax := bs.foldl max b0
    let nbins := (bmax - bmin).toNat + 1
    let lonI := interpolate ((List.range nbins).map (fun i =>
      binMean fixes (fun f => f.lon) cfg.dt_minutes (bmin + i)))
    let latI := interpolate ((List.range nbins).map (fun i =>
      binMean fixes (fun f => f.lat) cfg.dt_minutes (bmin + i)))
    let lonAt := fun j : Nat => lonI.getD j none
    let latAt := fun j : Nat => latI.getD j none
    let headAt := fun j : Nat =>
      if j = 0 then none
      else opt4 (bearing ops) (lonAt (j - 1)) (latAt (j - 1)) (lonAt j) (latAt j)
    let stepAt := fun j : Nat =>
      if j = 0 then none
      else opt4 (haversine ops) (lonAt (j - 1)) (latAt (j - 1)) (lonAt j) (latAt j)
    let xyAt := fun j : Nat =>
      opt2 (fun lo la => (to_local_xy ops lo la lon0 lat0).1) (lonAt j) (latAt j)
    let xyAt2 := fun j : Nat =>
      opt2 (fun lo la => (to_local_xy ops lo la lon0 lat0).2) (lonAt j) (latAt j)
    (List.range nbins).map (fun i : Nat =>
      { id := sid,
        time := (bmin + (i : Int)) * (cfg.dt_minutes : Int),
        lon := lonAt i,
        lat := latAt i,
        lon_prev := if i = 0 then none else lonAt (i - 1),
        lat_prev := if i = 0 then none else latAt (i - 1),
        step_len_m := stepAt i,
        heading_rad := headAt i,
        heading_prev_rad := if i = 0 then none else headAt (i - 1),
        turn_rad := opt2 (fun h hp => turn_rad_of ops.pi h hp) (headAt i)
          (if i = 0 then none else headAt (i - 1)),
        speed_mps := (stepAt i).map
          (fun s => s / ((cfg.dt_minutes : F) * 60)),
        x_m := xyAt i,
        y_m := xyAt2 i,
        x_prev := if i = 0 then none else xyAt (i - 1),
        y_prev := if i = 0 then none else xyAt2 (i - 1) })

/-- The final `dropna(subset=["lon_prev","lat_prev","step_len_m","x_prev",
"y_prev"])` predicate. -/
def keepRow (r : RRow F) : Bool :=
  r.lon_prev.isSome && r.lat_prev.isSome && r.step_len_m.isSome &&
    r.x_prev.isSome && r.y_prev.isSome

/-- `groupby` iterates distinct ids in ascending order. -/
def sortedIds (df : List (Fix F)) : List Nat :=
  ((df.map (fun f => f.id)).dedup).insertionSort (fun a b => a ≤ b)

/-- One individual's fixes, time-sorted (`sort_values([id_col, time_col])`
restricted to the group). -/
def groupFixes (df : List (Fix F)) (sid : Nat) : List (Fix F) :=
  (df.filter (fun f => f.id = sid)).insertionSort (fun a b => a.time ≤ b.time)

/-- `regularize`: center on the medians of the whole input, regularize each
individual, concatenate, and drop rows lacking a complete previous step. -/
def regularize (ops : RealOps F) (cfg : RegCfg) (df : List (Fix F)) :
    List (RRow F) :=
  let lon0 := median (df.map (fun f => f.lon))
  let lat0 := median (df.map (fun f => f.lat))
  (((sortedIds df).map (fun sid =>
    regularizeGroup ops cfg lon0 lat0 sid (groupFixes df sid))).flatten).filter
    keepRow

theorem foldl_min_const (b0 : Int) :
    ∀ (bs : List Int), (∀ x ∈ bs, x = b0) → bs.foldl min b0 = b0 := by
  intro bs
  induction bs with
  | nil => intro _; rfl
  | cons x t ih =>
    intro h
    have hx : x = b0 := h x (List.mem_cons_self x t)
    rw [List.foldl_cons, hx, min_self]
    exact ih (fun y hy => h y (List.mem_cons_of_mem x hy))

theorem foldl_max_const (b0 : Int) :
    ∀ (bs : List Int), (∀ x ∈ bs, x = b0) → bs.foldl max b0 = b0 := by
  intro bs
  induction bs with
  | nil => intro _; rfl
  | cons x t ih =>
    intro h
    have hx : x = b0 := h x (List.mem_cons_self x t)
    rw [List.foldl_cons, hx, max_self]
    exact ih (fun y hy => h y (List.mem_cons_of_mem x hy))

theorem regularizeGroup_id (ops : RealOps F) (cfg : RegCfg) (lon0 lat0 : F)
    (sid : Nat) (fixes : List (Fix F)) :
    ∀ r ∈ regularizeGroup ops cfg lon0 lat0 sid fixes, r.id = sid := by
  intro r hr
  cases fixes with
  | nil => simp [regularizeGroup] at hr
  | cons f fs =>
    simp only [regularizeGroup, List.map_cons] at hr
    simp only [List.mem_map, List.mem_range] at hr
    obtain ⟨i, _, hi⟩ := hr
    rw [← hi]

theorem regularizeGroup_same_bin (ops : RealOps F) (cfg : RegCfg)
    (lon0 lat0 : F) (sid : Nat) (fixes : List (Fix F)) (b : Int)
    (h : ∀ f ∈ fixes, binOf cfg.dt_minutes f.time = b) :
    ∀ r ∈ regularizeGroup ops cfg lon0 lat0 sid fixes,
      keepRow r = false := by
  intro r hr
  cases fixes with
  | nil => simp [regularizeGroup] at hr
  | cons f fs =>
    have hb0 : binOf cfg.dt_minutes f.time = b := h f (List.mem_cons_self f fs)
    have hbs : ∀ x ∈ fs.map (fun g => binOf cfg.dt_minutes g.time), x = b := by
      intro x hx
      rw [List.mem_map] at hx
      obtain ⟨g, hg, hgx⟩ := hx
      rw [← hgx]
      exact h g (List.mem_cons_of_mem f hg)
    have hnb :
        (((fs.map (fun g => binOf cfg.dt_minutes g.time)).foldl max
            (binOf cfg.dt_minutes f.time)) -
          ((fs.map (fun g => binOf cfg.dt_minutes g.time)).foldl min
            (binOf cfg.dt_minutes f.time))).toNat + 1 = 1 := by
      rw [hb0, foldl_min_const b _ hbs, foldl_max_const b _ hbs, sub_self]
      rfl
    simp only [regularizeGroup, List.map_cons, hnb] at hr
    rw [show List.range 1 = [0] from rfl] at hr
    simp only [List.map_cons, List.map_nil, List.mem_singleton] at hr
    subst hr
    rfl

/-- C5 counterexample: an individual with exactly 2 fixes, 10 minutes apart
on a 10-minute grid, yields one regularized row (the second grid row has a
complete previous position and step length even though it lacks a previous
heading), not zero. -/
theorem two_fix_zero_rows_counterexample :
    ([(⟨1, 0, 0, 0⟩ : Fix ℝ), ⟨1, 10, 0, 0⟩].length = 2) ∧
    (regularize (⟨Real.sin, Real.cos, Real.sqrt, Real.arcsin,
        fun y x => Complex.arg ⟨x, y⟩, Real.pi, Real.log, Real.exp⟩ :
        RealOps ℝ)
      ⟨10⟩ [⟨1, 0, 0, 0⟩, ⟨1, 10, 0, 0⟩]).length = 1 :=
  ⟨rfl, rfl⟩

/-- C5 (amended): every output row of the regularizer has a complete
previous step — previous position, step length and previous projected
position all defined (the first grid row of each individual is dropped) —
and an individual with only 2 fixes yields zero rows when both fixes fall in
the same grid bin (with fixes in distinct bins the surviving rows each have
a complete previous step, as in the counterexample). -/
theorem regularize_prev_complete (ops : RealOps F) (cfg : RegCfg)
    (df : List (Fix F)) (sid : Nat) (f1 f2 : Fix F) :
    (∀ r ∈ regularize ops cfg df, r.lon_prev.isSome ∧ r.lat_prev.isSome ∧
      r.step_len_m.isSome ∧ r.x_prev.isSome ∧ r.y_prev.isSome) ∧
    (df.filter (fun f => f.id = sid) = [f1, f2] →
      binOf cfg.dt_minutes f1.time = binOf cfg.dt_minutes f2.time →
      (regularize ops cfg df).filter (fun r => r.id = sid) = []) := by
  constructor
  · intro r hr
    rw [regularize] at hr
    have hk := (List.mem_filter.mp hr).2
    rw [keepRow] at hk
    simp only [Bool.and_eq_true] at hk
    exact ⟨hk.1.1.1.1, hk.1.1.1.2, hk.1.1.2, hk.1.2, hk.2⟩
  · intro hfil hbin
    rw [List.filter_eq_nil_iff]
    intro r hr
    simp only [decide_eq_true_eq]
    intro hid
    rw [regularize, List.mem_filter] at hr
    obtain ⟨hmem, hkeep⟩ := hr
    rw [List.mem_flatten] at hmem
    obtain ⟨l, hl, hrl⟩ := hmem
    rw [List.mem_map] at hl
    obtain ⟨sid', _, hgl⟩ := hl
    rw [← hgl] at hrl
    have hsid : sid' = sid := by
      rw [← hid]
      exact (regularizeGroup_id ops cfg _ _ sid' _ r hrl).symm
    subst hsid
    have hgmem : ∀ f ∈ groupFixes df sid',
        binOf cfg.dt_minutes f.time = binOf cfg.dt_minutes f1.time := by
      intro f hf
      rw [groupFixes] at hf
      have hperm := List.perm_insertionSort
        (fun a b : Fix F => a.time ≤ b.time) (df.filter (fun f => f.id = sid'))
      have hf2 : f ∈ df.filter (fun f => f.id = sid') := hperm.mem_iff.mp hf
      rw [hfil, List.mem_cons] at hf2
      rcases hf2 with h1 | h2
      · rw [h1]
      · rw [List.mem_singleton] at h2
        rw [h2, ← hbin]
    have := regularizeGroup_same_bin ops cfg _ _ sid' (groupFixes df sid')
      (binOf cfg.dt_minutes f1.time) hgmem r hrl
    rw [hkeep] at this
    exact absurd this (by simp)

/-- C5 witness: on a concrete two-fix same-bin input (times 0 and 3 on a
10-minute grid) the regularizer emits no row for that individual, and all
rows of any output have complete previous-step fields. -/
theorem regularize_prev_complete_witness :
    (∀ r ∈ regularize qOps ⟨10⟩ [(⟨1, 0, 0, 0⟩ : Fix ℚ), ⟨1, 3, 1, 1⟩],
      r.lon_prev.isSome ∧ r.lat_prev.isSome ∧
      r.step_len_m.isSome ∧ r.x_prev.isSome ∧ r.y_prev.isSome) ∧
    (regularize qOps ⟨10⟩ [(⟨1, 0, 0, 0⟩ : Fix ℚ), ⟨1, 3, 1, 1⟩]).filter
      (fun r => r.id = 1) = [] := by
  have h := regularize_prev_complete qOps ⟨10⟩
    [(⟨1, 0, 0, 0⟩ : Fix ℚ), ⟨1, 3, 1, 1⟩] 1 ⟨1, 0, 0, 0⟩ ⟨1, 3, 1, 1⟩
  exact ⟨h.1, h.2 (by decide) (by decide)⟩

end SharkISSA
